import Mathlib

/-! Verification development for the video-watermarking service
(`main.py` and `utils.py`).  The Python code is shallowly embedded:
real-valued quantities are modelled by `ℚ`, Python `int()` truncation by
`pyInt`, Python `float()` parsing of finite decimal literals by `pyFloat`,
Python string operations by executable functions on `List Char`, and the
mutable per-job dictionary entry by the immutable record `JobRecord`
together with explicit traces (lists of successive record states). -/

attribute [local semireducible] Rat.mul Rat.add Rat.inv Rat.sub Rat.ofScientific

namespace VidWatermark

/-! ## Python primitives -/

/-- Model of Python `int()` applied to a real value: truncation toward
zero (floor for nonnegative arguments, ceiling for negative ones). -/
def pyInt (q : ℚ) : ℤ := if q < 0 then ⌈q⌉ else ⌊q⌋

/-- Model of Python `str.strip()`: drop leading and trailing whitespace. -/
def pyStrip (cs : List Char) : List Char :=
  ((cs.dropWhile Char.isWhitespace).reverse.dropWhile Char.isWhitespace).reverse

/-- Model of Python `str.split(sep)` for a single-character separator. -/
def splitOnChar (c : Char) : List Char → List (List Char)
  | [] => [[]]
  | x :: xs =>
    let r := splitOnChar c xs
    if x = c then [] :: r
    else
      match r with
      | [] => [[x]]
      | y :: ys => (x :: y) :: ys

/-- Numeric value of a list of decimal digit characters, most significant
first (the usual positional reading used by Python literal parsing). -/
def digitsVal (cs : List Char) : ℕ :=
  cs.foldl (fun n c => 10 * n + (c.toNat - 48)) 0

/-- Exponent digits of a float literal: a nonempty all-digit suffix. -/
def expNat (cs : List Char) : Option ℤ :=
  if cs.isEmpty then none
  else if cs.all Char.isDigit then some (digitsVal cs) else none

/-- Signed exponent digits of a float literal. -/
def expSigned : List Char → Option ℤ
  | '+' :: rest => expNat rest
  | '-' :: rest => (expNat rest).map Neg.neg
  | rest => expNat rest

/-- Optional exponent part of a float literal: empty means exponent 0,
`e`/`E` followed by signed digits, anything else is malformed. -/
def expPart : List Char → Option ℤ
  | [] => some 0
  | 'e' :: rest => expSigned rest
  | 'E' :: rest => expSigned rest
  | _ => none

/-- Apply a decimal exponent to a mantissa. -/
def applyExp (m : ℚ) (e : ℤ) : ℚ :=
  if e < 0 then m / (10 : ℚ) ^ e.natAbs else m * (10 : ℚ) ^ e.natAbs

/-- Unsigned part of a Python float literal: digits, optionally a dot with
further digits (at least one digit overall), optionally an exponent. -/
def pyFloatCore (cs : List Char) : Option ℚ :=
  let ip := cs.takeWhile Char.isDigit
  let r1 := cs.dropWhile Char.isDigit
  match r1 with
  | '.' :: r2 =>
    let fp := r2.takeWhile Char.isDigit
    let r3 := r2.dropWhile Char.isDigit
    if ip.isEmpty && fp.isEmpty then none
    else (expPart r3).map fun e =>
      applyExp ((digitsVal ip : ℚ) + (digitsVal fp : ℚ) / (10 : ℚ) ^ fp.length) e
  | _ =>
    if ip.isEmpty then none
    else (expPart r1).map fun e => applyExp (digitsVal ip : ℚ) e

/-- Model of Python `float(s)`: strips surrounding whitespace, accepts an
optional sign followed by a finite decimal literal with optional exponent,
and fails (`ValueError`, modelled as `none`) on anything else.  The
non-finite literals `inf`/`nan` and digit-group underscores lie outside
the ℚ model and are never produced by the progress stream. -/
def pyFloat (s : String) : Option ℚ :=
  match pyStrip s.toList with
  | '+' :: rest => pyFloatCore rest
  | '-' :: rest => (pyFloatCore rest).map Neg.neg
  | rest => pyFloatCore rest

/-- Model of Python `os.path.basename` on POSIX: the part of the path
after the last slash. -/
def posixBasename (s : String) : String :=
  ⟨((s.toList.reverse.takeWhile (fun c => c ≠ '/')).reverse)⟩

/-- Model of Python `os.path.join(a, b)` on POSIX for the two-argument
form used by the repository. -/
def posixJoin (a b : String) : String :=
  if b.toList.head? = some '/' then b
  else if a.toList = [] ∨ a.toList.getLast? = some '/' then a ++ b
  else a ++ "/" ++ b

/-- Extension part of CPython `os.path.splitext`, applied to a path on
POSIX: the suffix of the basename starting at its last dot, except that a
dot belonging to the run of leading dots of the basename never starts an
extension. -/
def splitextExt (p : String) : String :=
  let b := (p.toList.reverse.takeWhile (fun c => c ≠ '/')).reverse
  let tailLen := (b.reverse.takeWhile (fun c => c ≠ '.')).length
  if tailLen = b.length then ""
  else
    let stem := b.take (b.length - tailLen - 1)
    if stem.any (fun c => c ≠ '.') then ⟨b.drop (b.length - tailLen - 1)⟩
    else ""

/-- Model of Python `str.lower()` (ASCII case folding suffices for the
extensions and media types involved). -/
def pyLower (s : String) : String := ⟨s.toList.map Char.toLower⟩

/-- Model of Python `str.startswith`. -/
def pyStartsWith (s pre : String) : Bool := pre.toList.isPrefixOf s.toList

/-! ## Job records (`processing_status[task_id]` in `main.py`) -/

/-- The three values the `status` field takes in `main.py`. -/
inductive Status
  | processing
  | completed
  | error
deriving DecidableEq, Repr

/-- One entry of the `processing_status` dictionary of `main.py`. -/
structure JobRecord where
  status : Status
  progress : ℤ
  output_path : Option String
  original_filename : String
  moving_watermark : Bool
  error : Option String
deriving DecidableEq, Repr

/-- The record created by `watermark_video_endpoint` at submission
(`main.py` lines 86-92). -/
def initialJobRecord (filename : String) (moving : Bool) : JobRecord :=
  { status := Status.processing
    progress := 0
    output_path := none
    original_filename := filename
    moving_watermark := moving
    error := none }

/-! ## Progress monitor (`monitor_progress` in `process_video`) -/

/-- Elapsed seconds carried by one progress line, when present: the line
must start with `out_time_ms=`, the text between the first and second `=`
is stripped and parsed as a float (microseconds), and divided by 1000000
(`main.py` lines 201-204).  `none` models both a non-matching line and a
`ValueError` swallowed by the `except` clause. -/
def parseOutTimeSeconds (line : String) : Option ℚ :=
  if pyStartsWith line "out_time_ms=" then
    match (splitOnChar '=' line.toList).get? 1 with
    | some seg => (pyFloat ⟨pyStrip seg⟩).map fun v => v / 1000000
    | none => none
  else none

/-- Progress percentage computed by the monitor from elapsed seconds and
the probed duration: `5 + min(90, int(90 * current_time / duration))`
(`main.py` line 206). -/
def computeProgress (currentTime duration : ℚ) : ℤ :=
  5 + min 90 (pyInt (90 * currentTime / duration))

/-- Effect of one stdout line on the job record: a parsed elapsed value
overwrites `progress`, every other line leaves the record untouched
(`main.py` lines 200-209). -/
def monitorStep (duration : ℚ) (r : JobRecord) (line : String) : JobRecord :=
  match parseOutTimeSeconds line with
  | some t => { r with progress := computeProgress t duration }
  | none => r

/-- Successive record states while the monitor consumes the stdout lines,
starting from (and including) the state at monitor start. -/
def monitorTrace (duration : ℚ) (r : JobRecord) (lines : List String) : List JobRecord :=
  lines.scanl (monitorStep duration) r

/-! ## The background task `process_video` -/

/-- Error message raised on a non-zero exit code (`main.py` line 230),
which the `except` clause then stores verbatim in the record. -/
def ffmpegErrorMsg (returncode : ℤ) (errorOutput : String) : String :=
  "FFmpeg process failed with exit code " ++ toString returncode ++
    "\nError output: " ++ errorOutput

/-- Record update on successful completion (`main.py` lines 224-228 and
236-240). -/
def markCompleted (outputPath : String) (r : JobRecord) : JobRecord :=
  { r with status := Status.completed, progress := 100, output_path := some outputPath }

/-- Record update performed by the `except` clause (`main.py` lines
244-247): `status` and `error` change, `progress` and `output_path`
keep their prior values. -/
def markError (msg : String) (r : JobRecord) : JobRecord :=
  { r with status := Status.error, error := some msg }

/-- Environment of one `process_video` run: everything the task receives
from the outside world.  `duration` is the probe result; when it is
available, `launchError` tells whether starting the subprocess raised,
and otherwise `lines`, `exitCode` and `stderrText` describe the
subprocess; when it is absent, `fallbackError` tells whether the
synchronous `watermark_video` call raised (its `check=True` run raises
`CalledProcessError` exactly on a non-zero exit). -/
structure RunEnv where
  duration : Option ℚ
  launchError : Option String
  lines : List String
  exitCode : ℤ
  stderrText : String
  fallbackError : Option String
deriving Repr

/-- State of the record right after the unconditional
`processing_status[task_id]["progress"] = 5` of `main.py` line 181,
which runs before the duration branch. -/
def startedRecord (init : JobRecord) : JobRecord := { init with progress := 5 }

/-- Trace of the states taken by `processing_status[task_id]` during one
`process_video` run (`main.py` lines 174-251), starting from the record
created at submission.  The monitor states are linearized before the
finalization step, matching `process.wait()` followed by the terminal
update. -/
def processVideoTrace (env : RunEnv) (outputPath : String) (init : JobRecord) :
    List JobRecord :=
  let started := startedRecord init
  match env.duration with
  | some d =>
    match env.launchError with
    | some msg => [init, started, markError msg started]
    | none =>
      let ms := monitorTrace d started env.lines
      let lastR := ms.getLastD started
      if env.exitCode = 0 then
        (init :: ms) ++ [markCompleted outputPath lastR]
      else
        (init :: ms) ++ [markError (ffmpegErrorMsg env.exitCode env.stderrText) lastR]
  | none =>
    match env.fallbackError with
    | none => [init, started, markCompleted outputPath started]
    | some msg => [init, started, markError msg started]

/-- A full run starting from the record the submission endpoint creates. -/
def processVideoRun (env : RunEnv) (filename : String) (moving : Bool)
    (outputPath : String) : List JobRecord :=
  processVideoTrace env outputPath (initialJobRecord filename moving)

/-- The record's final state after the run. -/
def processVideoFinal (env : RunEnv) (filename : String) (moving : Bool)
    (outputPath : String) : JobRecord :=
  (processVideoRun env filename moving outputPath).getLastD
    (initialJobRecord filename moving)

/-- Files on disk after the run, for an initial file set `fs`.  On the
paths where the subprocess succeeds the output file is written; the
`finally` clause then removes the input file when it exists
(`main.py` lines 248-251). -/
def processVideoFs (env : RunEnv) (fs : List String) (inputPath outputPath : String) :
    List String :=
  let fsAfter :=
    match env.duration with
    | some _ =>
      match env.launchError with
      | some _ => fs
      | none => if env.exitCode = 0 then outputPath :: fs else fs
    | none =>
      match env.fallbackError with
      | none => outputPath :: fs
      | some _ => fs
  if inputPath ∈ fsAfter then fsAfter.filter (fun p => p ≠ inputPath)
  else fsAfter

/-! ## Command builders (`utils.py`) -/

/-- Model of `utils.watermark_video` (lines 64-86): the pair of the
argument list it passes to `subprocess.run` and the output path it
returns.  `ffmpeg` stands for the result of `get_ffmpeg_path()`. -/
def watermark_video (ffmpeg input_path watermark_text : String) (moving : Bool) :
    List String × String :=
  let output_filename := "watermarked_" ++ posixBasename input_path
  let output_path := posixJoin "watermarked" output_filename
  let vf_text :=
    if moving then
      "drawtext=text='" ++ watermark_text ++
        "':fontcolor=white:fontsize=24:x='if(gte(t,0),w-50*t,NAN)':y=h-30"
    else
      "drawtext=text='" ++ watermark_text ++ "':fontcolor=white:fontsize=24:x=10:y=10"
  ([ffmpeg, "-i", input_path, "-vf", vf_text, "-codec:a", "copy", "-y", output_path],
    output_path)

/-- Model of `utils.watermark_video_with_progress` (lines 88-111): the
pair of the argument list and the output path it returns. -/
def watermark_video_with_progress (ffmpeg input_path watermark_text : String)
    (moving : Bool) : List String × String :=
  let output_filename := "watermarked_" ++ posixBasename input_path
  let output_path := posixJoin "watermarked" output_filename
  let vf_text :=
    if moving then
      "drawtext=text='" ++ watermark_text ++
        "':fontcolor=white:fontsize=24:x='if(gte(t,0),w-50*t,NAN)':y=h-30"
    else
      "drawtext=text='" ++ watermark_text ++ "':fontcolor=white:fontsize=24:x=10:y=10"
  ([ffmpeg, "-i", input_path, "-vf", vf_text, "-codec:a", "copy",
      "-progress", "pipe:1", "-y", output_path],
    output_path)

/-- Model of `utils.get_file_duration` (lines 117-128).  `toolAvailable`
is false when launching `ffprobe` raises (tool missing or malformed
invocation); otherwise `stdoutText` is the captured stdout.  The
`subprocess.run` call has no `check=True`, so `exitCode` is received but
never examined; the bare `except` turns every raised error into `None`. -/
def get_file_duration (toolAvailable : Bool) (exitCode : ℤ) (stdoutText : String) :
    Option ℚ :=
  if toolAvailable then pyFloat ⟨pyStrip stdoutText.toList⟩ else none

/-! ## The submission endpoint (`watermark_video_endpoint`) -/

/-- The video extension allow-list of `main.py` line 73. -/
def allowedVideoExtensions : List String :=
  [".mp4", ".avi", ".mov", ".mkv", ".wmv", ".flv", ".webm"]

/-- Validation test of `main.py` line 76: declared content type starts
with `video/` (a missing or empty content type is falsy), or lowercased
extension in the allow-list. -/
def videoUploadAccepted (contentType : Option String) (filename : String) : Bool :=
  (match contentType with
    | some c => pyStartsWith c "video/"
    | none => false)
    || allowedVideoExtensions.contains (pyLower (splitextExt filename))

/-- Model of the submission handler `watermark_video_endpoint`
(`main.py` lines 58-107) up to its effect on the job store: either an
HTTP client error with the store unchanged, or the store extended at the
fresh task id with the initial record.  The store is an association list
keyed by task id. -/
def watermark_video_endpoint (contentType : Option String) (filename : String)
    (moving : Bool) (store : List (String × JobRecord)) (taskId : String) :
    Except ℕ String × List (String × JobRecord) :=
  if videoUploadAccepted contentType filename then
    (Except.ok taskId, (taskId, initialJobRecord filename moving) :: store)
  else
    (Except.error 400, store)

/-! ## The moving-overlay position expression -/

/-- Evaluator for the ffmpeg expression `if(gte(t,0),w-50*t,NAN)` emitted
by the command builders when `moving` is true: `w` is the frame width,
`t` playback time; `none` models `NAN` (undefined position). -/
def movingWatermarkX (w t : ℚ) : Option ℚ :=
  if 0 ≤ t then some (w - 50 * t) else none

/-- The claim's notion of an on-screen horizontal position for a frame of
width `w` (stated from the specification's words, to compare with the
expression the code emits). -/
def onScreenX (w x : ℚ) : Prop := 0 ≤ x ∧ x ≤ w

end VidWatermark

namespace VidWatermark

/-! ## Arithmetic lemmas about the progress formula -/

lemma pyInt_eq_floor {a : ℚ} (h : 0 ≤ a) : pyInt a = ⌊a⌋ := by
  unfold pyInt
  rw [if_neg (not_lt.mpr h)]

lemma pyInt_mono {a b : ℚ} (h : a ≤ b) : pyInt a ≤ pyInt b := by
  unfold pyInt
  by_cases ha : a < 0 <;> by_cases hb : b < 0 <;> simp only [ha, hb, if_pos, if_neg, if_true, if_false]
  · exact Int.ceil_le_ceil h
  · refine le_trans ?_ (Int.floor_nonneg.mpr (not_lt.mp hb))
    have : (⌈a⌉ : ℤ) ≤ ⌈(0 : ℚ)⌉ := Int.ceil_le_ceil ha.le
    simpa using this
  · exact absurd (lt_of_le_of_lt h hb) ha
  · exact Int.floor_le_floor h

lemma pyInt_nonneg {a : ℚ} (h : 0 ≤ a) : 0 ≤ pyInt a := by
  rw [pyInt_eq_floor h]
  exact Int.floor_nonneg.mpr h

lemma computeProgress_le_95 (t d : ℚ) : computeProgress t d ≤ 95 := by
  unfold computeProgress
  have : min 90 (pyInt (90 * t / d)) ≤ 90 := min_le_left _ _
  omega

lemma computeProgress_ge_5 {t d : ℚ} (ht : 0 ≤ t) (hd : 0 < d) :
    5 ≤ computeProgress t d := by
  unfold computeProgress
  have harg : (0 : ℚ) ≤ 90 * t / d := div_nonneg (by positivity) hd.le
  have : (0 : ℤ) ≤ min 90 (pyInt (90 * t / d)) :=
    le_min (by norm_num) (pyInt_nonneg harg)
  omega

lemma computeProgress_mono {t₁ t₂ d : ℚ} (hd : 0 < d) (h : t₁ ≤ t₂) :
    computeProgress t₁ d ≤ computeProgress t₂ d := by
  unfold computeProgress
  have harg : 90 * t₁ / d ≤ 90 * t₂ / d := by gcongr
  have := pyInt_mono harg
  have := min_le_min (le_refl (90 : ℤ)) this
  omega

lemma computeProgress_zero (d : ℚ) : computeProgress 0 d = 5 := by
  unfold computeProgress
  norm_num [pyInt]

lemma computeProgress_half {d : ℚ} (hd : d ≠ 0) : computeProgress (d / 2) d = 50 := by
  unfold computeProgress
  have harg : 90 * (d / 2) / d = (45 : ℚ) := by field_simp; ring
  rw [harg, pyInt_eq_floor (by norm_num)]
  norm_num

lemma computeProgress_of_ge {e d : ℚ} (hd : 0 < d) (h : d ≤ e) :
    computeProgress e d = 95 := by
  unfold computeProgress
  have harg : (90 : ℚ) ≤ 90 * e / d := by
    rw [le_div_iff₀ hd]
    nlinarith
  have hnn : (0 : ℚ) ≤ 90 * e / d := le_trans (by norm_num) harg
  have : (90 : ℤ) ≤ pyInt (90 * e / d) := by
    rw [pyInt_eq_floor hnn]
    exact Int.le_floor.mpr (by exact_mod_cast harg)
  rw [min_eq_left this]
  norm_num

/-! ## Monitor lemmas -/

lemma monitorTrace_nil (d : ℚ) (r : JobRecord) : monitorTrace d r [] = [r] := rfl

lemma monitorTrace_cons (d : ℚ) (r : JobRecord) (line : String) (rest : List String) :
    monitorTrace d r (line :: rest) =
      r :: monitorTrace d (monitorStep d r line) rest := rfl

lemma monitorTrace_ne_nil (d : ℚ) (r : JobRecord) (lines : List String) :
    monitorTrace d r lines ≠ [] := by
  cases lines <;> simp [monitorTrace_nil, monitorTrace_cons]

lemma monitorTrace_head? (d : ℚ) (r : JobRecord) (lines : List String) :
    (monitorTrace d r lines).head? = some r := by
  cases lines <;> rfl

lemma monitorStep_status (d : ℚ) (r : JobRecord) (line : String) :
    (monitorStep d r line).status = r.status := by
  unfold monitorStep
  cases parseOutTimeSeconds line <;> rfl

lemma monitorStep_error (d : ℚ) (r : JobRecord) (line : String) :
    (monitorStep d r line).error = r.error := by
  unfold monitorStep
  cases parseOutTimeSeconds line <;> rfl

lemma monitorStep_progress_le_95 (d : ℚ) (r : JobRecord) (line : String)
    (h : r.progress ≤ 95) : (monitorStep d r line).progress ≤ 95 := by
  unfold monitorStep
  cases parseOutTimeSeconds line with
  | none => exact h
  | some t => exact computeProgress_le_95 t d

lemma monitorTrace_status (d : ℚ) (lines : List String) :
    ∀ (r : JobRecord), ∀ x ∈ monitorTrace d r lines, x.status = r.status := by
  induction lines with
  | nil => intro r x hx; rw [monitorTrace_nil] at hx; simp at hx; rw [hx]
  | cons line rest ih =>
    intro r x hx
    rw [monitorTrace_cons] at hx
    rcases List.mem_cons.mp hx with h | h
    · rw [h]
    · exact (ih _ x h).trans (monitorStep_status d r line)

lemma monitorTrace_progress_le_95 (d : ℚ) (lines : List String) :
    ∀ (r : JobRecord), r.progress ≤ 95 → ∀ x ∈ monitorTrace d r lines, x.progress ≤ 95 := by
  induction lines with
  | nil => intro r hr x hx; rw [monitorTrace_nil] at hx; simp at hx; rw [hx]; exact hr
  | cons line rest ih =>
    intro r hr x hx
    rw [monitorTrace_cons] at hx
    rcases List.mem_cons.mp hx with h | h
    · rw [h]; exact hr
    · exact ih _ (monitorStep_progress_le_95 d r line hr) x h

lemma monitorTrace_chain (d : ℚ) (hd : 0 < d) :
    ∀ (lines : List String) (r : JobRecord),
      (∀ t ∈ lines.filterMap parseOutTimeSeconds, r.progress ≤ computeProgress t d) →
      (lines.filterMap parseOutTimeSeconds).Pairwise (· ≤ ·) →
      List.Chain' (fun a b => a.progress ≤ b.progress) (monitorTrace d r lines) := by
  intro lines
  induction lines with
  | nil => intro r _ _; rw [monitorTrace_nil]; exact List.chain'_singleton r
  | cons line rest ih =>
    intro r hr hsort
    rw [monitorTrace_cons, List.chain'_cons']
    constructor
    · intro y hy
      rw [monitorTrace_head?] at hy
      cases hy
      unfold monitorStep
      cases hp : parseOutTimeSeconds line with
      | none => exact le_refl _
      | some t =>
        exact hr t (by rw [List.filterMap_cons, hp]; exact List.mem_cons_self _ _)
    · cases hp : parseOutTimeSeconds line with
      | none =>
        apply ih
        · intro t ht
          have : (monitorStep d r line) = r := by unfold monitorStep; rw [hp]
          rw [this]
          exact hr t (by rw [List.filterMap_cons, hp]; exact ht)
        · have : (line :: rest).filterMap parseOutTimeSeconds =
              rest.filterMap parseOutTimeSeconds := by
            rw [List.filterMap_cons, hp]
          rw [this] at hsort
          exact hsort
      | some t =>
        have hfm : (line :: rest).filterMap parseOutTimeSeconds =
            t :: rest.filterMap parseOutTimeSeconds := by
          rw [List.filterMap_cons, hp]
        rw [hfm] at hsort
        apply ih
        · intro u hu
          have hstep : (monitorStep d r line).progress = computeProgress t d := by
            unfold monitorStep; rw [hp]
          rw [hstep]
          exact computeProgress_mono hd ((List.pairwise_cons.mp hsort).1 u hu)
        · exact (List.pairwise_cons.mp hsort).2

lemma chain'_of_forall {α : Type} {P : α → Prop} :
    ∀ {l : List α}, (∀ a ∈ l, P a) → List.Chain' (fun a _ => P a) l := by
  intro l
  induction l with
  | nil => intro _; exact List.chain'_nil
  | cons x xs ih =>
    intro h
    rw [List.chain'_cons']
    exact ⟨fun y _ => h x (List.mem_cons_self _ _),
      ih fun a ha => h a (List.mem_cons_of_mem _ ha)⟩

lemma chain'_append_last {α : Type} {P : α → Prop} :
    ∀ (l : List α) (x : α), (∀ a ∈ l, P a) →
      List.Chain' (fun a _ => P a) (l ++ [x]) := by
  intro l
  induction l with
  | nil => intro x _; exact List.chain'_singleton x
  | cons a as ih =>
    intro x h
    rw [List.cons_append, List.chain'_cons']
    exact ⟨fun y _ => h a (List.mem_cons_self _ _),
      ih x fun b hb => h b (List.mem_cons_of_mem _ hb)⟩

/-! ## Trace facts about `process_video` -/

lemma startedRecord_progress (init : JobRecord) : (startedRecord init).progress = 5 := rfl

lemma startedRecord_status (init : JobRecord) :
    (startedRecord init).status = init.status := rfl

lemma markError_progress (msg : String) (r : JobRecord) :
    (markError msg r).progress = r.progress := rfl

lemma markError_status (msg : String) (r : JobRecord) :
    (markError msg r).status = Status.error := rfl

lemma markError_error (msg : String) (r : JobRecord) :
    (markError msg r).error = some msg := rfl

lemma markError_output_path (msg : String) (r : JobRecord) :
    (markError msg r).output_path = r.output_path := rfl

lemma markCompleted_progress (p : String) (r : JobRecord) :
    (markCompleted p r).progress = 100 := rfl

lemma markCompleted_status (p : String) (r : JobRecord) :
    (markCompleted p r).status = Status.completed := rfl

lemma markCompleted_output_path (p : String) (r : JobRecord) :
    (markCompleted p r).output_path = some p := rfl

lemma run_progress_100_completed :
    ∀ (env : RunEnv) (filename : String) (moving : Bool) (outputPath : String),
      ∀ r ∈ processVideoRun env filename moving outputPath,
        r.progress = 100 → r.status = Status.completed := by
  rintro ⟨dur, le, lines, ec, se, fe⟩ filename moving outputPath r hr
  unfold processVideoRun processVideoTrace at hr
  dsimp only at hr
  cases dur with
  | none =>
    cases fe with
    | none =>
      simp only [List.mem_cons, List.not_mem_nil, or_false] at hr
      rcases hr with rfl | rfl | rfl
      · intro h; simp [startedRecord, initialJobRecord] at h
      · intro h; simp [startedRecord, initialJobRecord] at h
      · intro _; rfl
    | some msg =>
      simp only [List.mem_cons, List.not_mem_nil, or_false] at hr
      rcases hr with rfl | rfl | rfl
      · intro h; simp [startedRecord, initialJobRecord] at h
      · intro h; simp [startedRecord, initialJobRecord] at h
      · intro h; simp [markError, startedRecord, initialJobRecord] at h
  | some d =>
    cases le with
    | some msg =>
      simp only [List.mem_cons, List.not_mem_nil, or_false] at hr
      rcases hr with rfl | rfl | rfl
      · intro h; simp [startedRecord, initialJobRecord] at h
      · intro h; simp [startedRecord, initialJobRecord] at h
      · intro h; simp [markError, startedRecord, initialJobRecord] at h
    | none =>
      have hstart : (startedRecord (initialJobRecord filename moving)).progress ≤ 95 := by
        rw [startedRecord_progress]; omega
      have h95 := monitorTrace_progress_le_95 d lines
        (startedRecord (initialJobRecord filename moving)) hstart
      have hlast :
          ((monitorTrace d (startedRecord (initialJobRecord filename moving)) lines).getLastD
            (startedRecord (initialJobRecord filename moving))).progress ≤ 95 := by
        rcases List.mem_cons.mp (List.getLastD_mem_cons
            (monitorTrace d (startedRecord (initialJobRecord filename moving)) lines)
            (startedRecord (initialJobRecord filename moving))) with h | h
        · rw [h]; exact hstart
        · exact h95 _ h
      by_cases hec : ec = 0 <;>
        simp only [hec, if_pos, if_neg, if_true, if_false, reduceIte] at hr <;>
        rcases List.mem_append.mp hr with hr' | hr'
      · rcases List.mem_cons.mp hr' with rfl | hms
        · intro h; simp [startedRecord, initialJobRecord] at h
        · intro h
          have := h95 r hms
          omega
      · simp only [List.mem_singleton] at hr'
        subst hr'
        intro _; rfl
      · rcases List.mem_cons.mp hr' with rfl | hms
        · intro h; simp [startedRecord, initialJobRecord] at h
        · intro h
          have := h95 r hms
          omega
      · simp only [List.mem_singleton] at hr'
        subst hr'
        intro h
        exfalso
        rw [markError_progress] at h
        omega

lemma run_getLast?_terminal :
    ∀ (env : RunEnv) (filename : String) (moving : Bool) (outputPath : String) (r : JobRecord),
      (processVideoRun env filename moving outputPath).getLast? = some r →
        r.status ≠ Status.processing := by
  rintro ⟨dur, le, lines, ec, se, fe⟩ filename moving outputPath r hr
  unfold processVideoRun processVideoTrace at hr
  dsimp only at hr
  cases dur with
  | none =>
    cases fe <;> simp_all [markCompleted, markError] <;> simp [← hr]
  | some d =>
    cases le with
    | some msg => simp_all [markError]; simp [← hr]
    | none =>
      by_cases hec : ec = 0 <;>
        simp only [hec, if_pos, if_neg, if_true, if_false, reduceIte] at hr <;>
        rw [List.getLast?_concat] at hr <;>
        cases hr <;> simp [markCompleted, markError]

lemma processVideoRun_ne_nil (env : RunEnv) (filename : String) (moving : Bool)
    (outputPath : String) : processVideoRun env filename moving outputPath ≠ [] := by
  rcases env with ⟨dur, le, lines, ec, se, fe⟩
  unfold processVideoRun processVideoTrace
  dsimp only
  cases dur with
  | none => cases fe <;> simp
  | some d =>
    cases le with
    | some msg => simp
    | none => by_cases hec : ec = 0 <;> simp [hec]

lemma processVideoFinal_terminal (env : RunEnv) (filename : String) (moving : Bool)
    (outputPath : String) :
    (processVideoFinal env filename moving outputPath).status ≠ Status.processing := by
  unfold processVideoFinal
  rw [List.getLastD_eq_getLast?]
  cases hlast : (processVideoRun env filename moving outputPath).getLast? with
  | none =>
    exact absurd (List.getLast?_eq_none_iff.mp hlast)
      (processVideoRun_ne_nil env filename moving outputPath)
  | some r =>
    exact run_getLast?_terminal env filename moving outputPath r hlast

/-! ## Claim theorems -/

/-- C5: a progress line whose elapsed-time value is malformed or
non-numeric (or any line not carrying the marker) is silently skipped: the
monitor step is a total function that returns the job record unchanged, so
no exception escapes the loop and `progress` keeps its prior value. -/
theorem claim_C5 (d : ℚ) (r : JobRecord) (line : String)
    (h : parseOutTimeSeconds line = none) : monitorStep d r line = r := by
  unfold monitorStep
  rw [h]

/-- Witness for C5 at the concrete malformed line `out_time_ms=abc`. -/
theorem claim_C5_witness :
    monitorStep 60 (initialJobRecord "a.mp4" false) "out_time_ms=abc\n"
      = initialJobRecord "a.mp4" false :=
  claim_C5 60 (initialJobRecord "a.mp4" false) "out_time_ms=abc\n" (by decide)

/-- C6 (amended): `get_file_duration` never raises and returns `None`
when the probing tool is missing or when the captured stdout does not
parse as a float (which covers empty output, the usual non-zero-exit
shape); when stdout parses, the parsed value is returned regardless of
the exit code, because the `subprocess.run` call has no `check=True` and
the exit code is never examined. -/
theorem claim_C6 (exitCode : ℤ) (stdoutText : String) :
    get_file_duration false exitCode stdoutText = none
    ∧ (pyFloat ⟨pyStrip stdoutText.toList⟩ = none →
        get_file_duration true exitCode stdoutText = none)
    ∧ (∀ q : ℚ, pyFloat ⟨pyStrip stdoutText.toList⟩ = some q →
        get_file_duration true exitCode stdoutText = some q) := by
  refine ⟨rfl, fun h => ?_, fun q h => ?_⟩
  · unfold get_file_duration
    rw [if_pos rfl, h]
  · unfold get_file_duration
    rw [if_pos rfl, h]

/-- Witness for C6 at empty stdout (the shape a failed probe produces). -/
theorem claim_C6_witness : get_file_duration true 1 "" = none :=
  (claim_C6 1 "").2.1 (by decide)

/-- Counterexample to C6 as stated: with the tool present, a non-zero
exit code and numeric stdout, the code returns the parsed value instead
of the absent value the claim requires for every non-zero exit. -/
theorem claim_C6_counterexample :
    get_file_duration true 1 "3.5\n" = some (7 / 2) ∧ (1 : ℤ) ≠ 0 :=
  ⟨by decide, by decide⟩

/-- C7: on every exit path of `process_video` — fallback success,
fallback failure, launch failure, subprocess success or subprocess
failure — the `finally` clause removes the uploaded input file, so the
input path is absent from the final file set, and the job record ends in
a terminal state. -/
theorem claim_C7 (env : RunEnv) (fs : List String)
    (inputPath outputPath filename : String) (moving : Bool) :
    inputPath ∉ processVideoFs env fs inputPath outputPath
    ∧ (processVideoFinal env filename moving outputPath).status ≠ Status.processing := by
  refine ⟨?_, processVideoFinal_terminal env filename moving outputPath⟩
  unfold processVideoFs
  set fsAfter :=
    (match env.duration with
      | some _ =>
        match env.launchError with
        | some _ => fs
        | none => if env.exitCode = 0 then outputPath :: fs else fs
      | none =>
        match env.fallbackError with
        | none => outputPath :: fs
        | some _ => fs) with hfs
  by_cases hmem : inputPath ∈ fsAfter
  · rw [if_pos hmem]
    intro hin
    rcases List.mem_filter.mp hin with ⟨_, hpred⟩
    simp at hpred
  · rw [if_neg hmem]
    exact hmem

/-- C9 (amended): with the moving flag, the builders emit the horizontal
position expression `if(gte(t,0),w-50*t,NAN)` (speed constant 50); the
expression evaluates to the defined value `w - 50*t` for every `t ≥ 0`
and is undefined (NAN) for `t < 0`; the defined value is on-screen only
while `50*t ≤ w` (for larger `t` the overlay has scrolled off the left
edge). -/
theorem claim_C9 (w t : ℚ) (ffmpeg input_path watermark_text : String) :
    (watermark_video_with_progress ffmpeg input_path watermark_text true).1.get? 4
      = some ("drawtext=text='" ++ watermark_text ++
          "':fontcolor=white:fontsize=24:x='if(gte(t,0),w-50*t,NAN)':y=h-30")
    ∧ (0 ≤ t → movingWatermarkX w t = some (w - 50 * t))
    ∧ (t < 0 → movingWatermarkX w t = none)
    ∧ (0 ≤ t → 50 * t ≤ w → onScreenX w (w - 50 * t)) := by
  refine ⟨rfl, fun ht => ?_, fun ht => ?_, fun ht hw => ?_⟩
  · unfold movingWatermarkX
    rw [if_pos ht]
  · unfold movingWatermarkX
    rw [if_neg (not_le.mpr ht)]
  · exact ⟨by nlinarith, by nlinarith⟩

/-- Witness for C9 at `w = 100`, `t = 1`. -/
theorem claim_C9_witness : movingWatermarkX 100 1 = some 50 := by
  have h := (claim_C9 100 1 "ffmpeg" "uploads/u.mp4" "wm").2.1 (by norm_num)
  rw [h]
  norm_num

/-- Counterexample to C9 as stated: at `t = 10 ≥ 0` with frame width 100
the expression evaluates to `-400`, which is not an on-screen position,
so the expression does not evaluate to an on-screen value for every
`t ≥ 0`. -/
theorem claim_C9_counterexample :
    (0 : ℚ) ≤ 10 ∧ movingWatermarkX 100 10 = some (-400)
      ∧ ¬ onScreenX 100 (-400) := by
  refine ⟨by norm_num, by decide, ?_⟩
  intro h
  have := h.1
  norm_num at this

/-- C10: for every input path, watermark text and moving flag, the two
video command builders construct the same output path and the same
drawtext filter, and the argument list of the progress variant is the
plain one with `-progress pipe:1` inserted before the overwrite flag. -/
theorem claim_C10 (ffmpeg input_path watermark_text : String) (moving : Bool) :
    (watermark_video_with_progress ffmpeg input_path watermark_text moving).2
      = (watermark_video ffmpeg input_path watermark_text moving).2
    ∧ (watermark_video_with_progress ffmpeg input_path watermark_text moving).1.get? 4
      = (watermark_video ffmpeg input_path watermark_text moving).1.get? 4
    ∧ (watermark_video_with_progress ffmpeg input_path watermark_text moving).1
      = (watermark_video ffmpeg input_path watermark_text moving).1.take 7
        ++ ["-progress", "pipe:1"]
        ++ (watermark_video ffmpeg input_path watermark_text moving).1.drop 7 := by
  cases moving <;> exact ⟨rfl, rfl, rfl⟩

/-- C8: a video submission is rejected with a 400 client error, leaving
the job store untouched, exactly when the declared content type does not
start with `video/` and the lowercased extension is outside the
allow-list; when either condition matches, the submission is accepted and
the store gains, under the fresh task id, the initial record with
status `processing` and progress 0. -/
theorem claim_C8 (contentType : Option String) (filename : String) (moving : Bool)
    (store : List (String × JobRecord)) (taskId : String) :
    ((watermark_video_endpoint contentType filename moving store taskId).1
        = Except.error 400
      ↔ (∀ c, contentType = some c → pyStartsWith c "video/" = false)
        ∧ allowedVideoExtensions.contains (pyLower (splitextExt filename)) = false)
    ∧ ((watermark_video_endpoint contentType filename moving store taskId).1
        = Except.error 400 →
        (watermark_video_endpoint contentType filename moving store taskId).2 = store)
    ∧ (videoUploadAccepted contentType filename = true →
        (watermark_video_endpoint contentType filename moving store taskId).1
          = Except.ok taskId
        ∧ (watermark_video_endpoint contentType filename moving store taskId).2
          = (taskId, initialJobRecord filename moving) :: store)
    ∧ (initialJobRecord filename moving).status = Status.processing
    ∧ (initialJobRecord filename moving).progress = 0 := by
  have haccept : videoUploadAccepted contentType filename = true ↔
      (∃ c, contentType = some c ∧ pyStartsWith c "video/" = true)
        ∨ allowedVideoExtensions.contains (pyLower (splitextExt filename)) = true := by
    unfold videoUploadAccepted
    cases contentType with
    | none => simp
    | some c => simp [Bool.or_eq_true]
  refine ⟨?_, ?_, ?_, rfl, rfl⟩
  · unfold watermark_video_endpoint
    by_cases h : videoUploadAccepted contentType filename
    · rw [if_pos h]
      constructor
      · intro habs
        exact absurd habs (by simp)
      · rintro ⟨h1, h2⟩
        rcases haccept.mp h with ⟨c, hc, hstart⟩ | hext
        · rw [h1 c hc] at hstart
          exact absurd hstart (by simp)
        · rw [h2] at hext
          exact absurd hext (by simp)
    · rw [if_neg h]
      constructor
      · intro _
        have hne := (not_iff_not.mpr haccept).mp h
        push_neg at hne
        exact ⟨fun c hc => by simpa using hne.1 c hc, by simpa using hne.2⟩
      · intro _; rfl
  · unfold watermark_video_endpoint
    by_cases h : videoUploadAccepted contentType filename
    · rw [if_pos h]
      intro habs
      exact absurd habs (by simp)
    · rw [if_neg h]
      intro _; rfl
  · intro h
    unfold watermark_video_endpoint
    rw [if_pos h]
    exact ⟨rfl, rfl⟩

/-- Witness for C8: a `.txt` upload declared `text/plain` is rejected
with a 400 error and the store stays empty, while an `.mp4` upload is
accepted with the initial processing record. -/
theorem claim_C8_witness :
    (watermark_video_endpoint (some "text/plain") "a.txt" false [] "t1").1
      = Except.error 400
    ∧ (watermark_video_endpoint (some "text/plain") "a.txt" false [] "t1").2 = []
    ∧ (watermark_video_endpoint none "b.mp4" true [] "t2").2
      = [("t2", initialJobRecord "b.mp4" true)] := by
  have hrej := (claim_C8 (some "text/plain") "a.txt" false [] "t1").1.mpr
    ⟨by rintro c rfl1; cases rfl1; decide, by decide⟩
  refine ⟨hrej, (claim_C8 (some "text/plain") "a.txt" false [] "t1").2.1 hrej, ?_⟩
  exact ((claim_C8 none "b.mp4" true [] "t2").2.2.1 (by decide)).2

/-- C1 (amended): for every duration `d > 0` and every nonnegative parsed
elapsed value `e`, the monitor writes `progress = 5 + min(90, floor(90 *
e / d))` into the record, this value lies in `[5, 95]`, `e = 0` gives 5,
`e = d/2` gives 50, `e ≥ d` gives 95, and in every run progress 100 is
only ever observed together with status `completed` (i.e. after a
successful exit).  The code does not clamp below, so the `[5, 95]` bound
needs `0 ≤ e`: a negative parsed value drops progress below 5
(see the counterexample). -/
theorem claim_C1 (d e : ℚ) (hd : 0 < d) (he : 0 ≤ e) :
    (∀ (r : JobRecord) (line : String), parseOutTimeSeconds line = some e →
        monitorStep d r line = { r with progress := computeProgress e d })
    ∧ computeProgress e d = 5 + min 90 ⌊90 * e / d⌋
    ∧ 5 ≤ computeProgress e d
    ∧ computeProgress e d ≤ 95
    ∧ computeProgress 0 d = 5
    ∧ computeProgress (d / 2) d = 50
    ∧ (d ≤ e → computeProgress e d = 95)
    ∧ (∀ (env : RunEnv) (filename : String) (moving : Bool) (outputPath : String),
        ∀ r ∈ processVideoRun env filename moving outputPath,
          r.progress = 100 → r.status = Status.completed) := by
  refine ⟨?_, ?_, computeProgress_ge_5 he hd, computeProgress_le_95 e d,
    computeProgress_zero d, computeProgress_half hd.ne', fun h => computeProgress_of_ge hd h,
    run_progress_100_completed⟩
  · intro r line hline
    unfold monitorStep
    rw [hline]
  · unfold computeProgress
    rw [pyInt_eq_floor (div_nonneg (by positivity) hd.le)]

/-- Witness for C1 at `d = 2`, `e = 1`: half the duration gives 50. -/
theorem claim_C1_witness : computeProgress (2 / 2) 2 = 50 :=
  (claim_C1 2 1 (by norm_num) (by norm_num)).2.2.2.2.2.1

/-- Counterexample to C1 as stated: the line `out_time_ms=-2000000`
parses (elapsed `-2` s), and with duration 1 the monitor computes
progress `-175`, outside `[5, 95]` — the formula is not clamped below. -/
theorem claim_C1_counterexample :
    parseOutTimeSeconds "out_time_ms=-2000000\n" = some (-2)
    ∧ computeProgress (-2) 1 = -175
    ∧ ¬ ((5 : ℤ) ≤ -175 ∧ (-175 : ℤ) ≤ 95) :=
  ⟨by decide, by decide, by decide⟩

/-- C3: in the monitored branch (duration available, launch succeeded),
exit code zero finalizes the record to status `completed`, progress 100
and the computed output path, while a non-zero exit code finalizes it to
status `error` with the message embedding the exit code and the captured
standard-error text verbatim. -/
theorem claim_C3 (env : RunEnv) (filename outputPath : String) (moving : Bool) (d : ℚ)
    (hdur : env.duration = some d) (hlaunch : env.launchError = none) :
    (env.exitCode = 0 →
        (processVideoFinal env filename moving outputPath).status = Status.completed
        ∧ (processVideoFinal env filename moving outputPath).progress = 100
        ∧ (processVideoFinal env filename moving outputPath).output_path = some outputPath)
    ∧ (env.exitCode ≠ 0 →
        (processVideoFinal env filename moving outputPath).status = Status.error
        ∧ (processVideoFinal env filename moving outputPath).error
          = some ("FFmpeg process failed with exit code " ++ toString env.exitCode
              ++ "\nError output: " ++ env.stderrText)) := by
  rcases env with ⟨dur, le, lines, ec, se, fe⟩
  simp only at hdur hlaunch
  subst hdur
  subst hlaunch
  unfold processVideoFinal processVideoRun processVideoTrace
  dsimp only
  constructor
  · intro hec
    rw [if_pos hec]
    rw [List.getLastD_concat]
    exact ⟨rfl, rfl, rfl⟩
  · intro hec
    rw [if_neg hec]
    rw [List.getLastD_concat]
    exact ⟨rfl, rfl⟩

/-- Witness for C3 at a concrete failing environment (exit code 1). -/
theorem claim_C3_witness :
    (processVideoFinal
        { duration := some 60, launchError := none, lines := [],
          exitCode := 1, stderrText := "boom", fallbackError := none }
        "a.mp4" false "watermarked/watermarked_a.mp4").error
      = some "FFmpeg process failed with exit code 1\nError output: boom" := by
  have h := (claim_C3
      { duration := some 60, launchError := none, lines := [],
        exitCode := 1, stderrText := "boom", fallbackError := none }
      "a.mp4" "watermarked/watermarked_a.mp4" false 60 rfl rfl).2 (by decide)
  rw [h.2]
  rfl

/-- C4 (amended): when the duration probe returns an absent value, the
job still reaches a terminal state with no monitor-driven updates, but
the unconditional started-floor write of 5 (which the code performs
before the duration branch) does occur: on success the progress sequence
is exactly 0, 5, 100 — so one intermediate value, 5, is written between
the record's initial value and 100 — and on a fallback failure it is
0, 5, 5 with status `error`. -/
theorem claim_C4 (env : RunEnv) (filename outputPath : String) (moving : Bool)
    (hdur : env.duration = none) :
    (env.fallbackError = none →
        processVideoRun env filename moving outputPath
          = [initialJobRecord filename moving,
             startedRecord (initialJobRecord filename moving),
             markCompleted outputPath (startedRecord (initialJobRecord filename moving))]
        ∧ (processVideoRun env filename moving outputPath).map JobRecord.progress
          = [0, 5, 100])
    ∧ (∀ msg, env.fallbackError = some msg →
        processVideoRun env filename moving outputPath
          = [initialJobRecord filename moving,
             startedRecord (initialJobRecord filename moving),
             markError msg (startedRecord (initialJobRecord filename moving))]
        ∧ (processVideoRun env filename moving outputPath).map JobRecord.progress
          = [0, 5, 5])
    ∧ (processVideoFinal env filename moving outputPath).status ≠ Status.processing := by
  rcases env with ⟨dur, le, lines, ec, se, fe⟩
  simp only at hdur
  subst hdur
  refine ⟨?_, ?_, processVideoFinal_terminal _ filename moving outputPath⟩
  · intro hfe
    simp only at hfe
    subst hfe
    exact ⟨rfl, rfl⟩
  · intro msg hfe
    simp only at hfe
    subst hfe
    exact ⟨rfl, rfl⟩

/-- Witness for C4 at a concrete probe-failure environment. -/
theorem claim_C4_witness :
    (processVideoRun
        { duration := none, launchError := none, lines := [],
          exitCode := 0, stderrText := "", fallbackError := none }
        "a.mp4" false "watermarked/watermarked_a.mp4").map JobRecord.progress
      = [0, 5, 100] :=
  ((claim_C4
      { duration := none, launchError := none, lines := [],
        exitCode := 0, stderrText := "", fallbackError := none }
      "a.mp4" "watermarked/watermarked_a.mp4" false rfl).1 rfl).2

/-- Counterexample to C4 as stated: on the no-duration success path the
progress sequence is 0, 5, 100 — the value 5 is an intermediate progress
value written between the record's initial value 0 and 100, so the claim
that no intermediate value is written fails. -/
theorem claim_C4_counterexample :
    (processVideoRun
        { duration := none, launchError := none, lines := [],
          exitCode := 0, stderrText := "", fallbackError := none }
        "b.mp4" false "watermarked/watermarked_b.mp4").map JobRecord.progress
      = [0, 5, 100]
    ∧ (0 : ℤ) ≠ 5 ∧ (5 : ℤ) ≠ 100 :=
  ⟨by decide, by decide, by decide⟩

/-- C2 (amended): in every run, only the last trace entry can be
non-`processing` (so the status goes `processing` to `completed` or
`error` once and nothing follows a terminal state), the run ends in a
terminal status, and — provided the parsed elapsed values of the
progress stream are nonnegative and non-decreasing, as the collaborating
tool's stream provides — the observable progress sequence is
monotonically non-decreasing across the whole trace.  Without that
proviso the clamping formula alone does not force monotonicity (see the
counterexample). -/
theorem claim_C2 (env : RunEnv) (filename outputPath : String) (moving : Bool)
    (hd : ∀ d, env.duration = some d → 0 < d)
    (hnn : ∀ t ∈ env.lines.filterMap parseOutTimeSeconds, 0 ≤ t)
    (hsort : (env.lines.filterMap parseOutTimeSeconds).Pairwise (· ≤ ·)) :
    List.Chain' (fun a _ => a.status = Status.processing)
        (processVideoRun env filename moving outputPath)
    ∧ (∀ r, (processVideoRun env filename moving outputPath).getLast? = some r →
        r.status ≠ Status.processing)
    ∧ List.Chain' (fun a b => a.progress ≤ b.progress)
        (processVideoRun env filename moving outputPath) := by
  refine ⟨?_, run_getLast?_terminal env filename moving outputPath, ?_⟩
  · rcases env with ⟨dur, le, lines, ec, se, fe⟩
    unfold processVideoRun processVideoTrace
    dsimp only
    cases dur with
    | none =>
      cases fe <;>
        simp [List.chain'_cons, List.chain'_singleton, initialJobRecord, startedRecord]
    | some d =>
      cases le with
      | some msg =>
        simp [List.chain'_cons, List.chain'_singleton, initialJobRecord, startedRecord]
      | none =>
        have hall : ∀ a ∈ initialJobRecord filename moving ::
            monitorTrace d (startedRecord (initialJobRecord filename moving)) lines,
            a.status = Status.processing := by
          intro a ha
          rcases List.mem_cons.mp ha with rfl | hms
          · rfl
          · exact (monitorTrace_status d lines _ a hms).trans rfl
        by_cases hec : ec = 0 <;> simp only [hec, reduceIte, if_pos, if_neg, if_true, if_false] <;>
          exact chain'_append_last _ _ hall
  · rcases env with ⟨dur, le, lines, ec, se, fe⟩
    dsimp only at hd hnn hsort
    unfold processVideoRun processVideoTrace
    dsimp only
    cases dur with
    | none =>
      cases fe <;>
        norm_num [List.chain'_cons, List.chain'_singleton, initialJobRecord,
          startedRecord, markCompleted, markError]
    | some d =>
      have hd' : 0 < d := hd d rfl
      cases le with
      | some msg =>
        norm_num [List.chain'_cons, List.chain'_singleton, initialJobRecord,
          startedRecord, markCompleted, markError]
      | none =>
        set init := initialJobRecord filename moving with hinit
        set started := startedRecord init with hstartedDef
        set ms := monitorTrace d started lines with hmsDef
        have hms_chain : List.Chain' (fun a b => a.progress ≤ b.progress) ms := by
          apply monitorTrace_chain d hd' lines started ?_ hsort
          intro t ht
          rw [hstartedDef, startedRecord_progress]
          exact computeProgress_ge_5 (hnn t ht) hd'
        have hms95 : ∀ x ∈ ms, x.progress ≤ 95 := by
          apply monitorTrace_progress_le_95 d lines started
          rw [hstartedDef, startedRecord_progress]
          omega
        have hlast95 : (ms.getLastD started).progress ≤ 95 := by
          rcases List.mem_cons.mp (List.getLastD_mem_cons ms started) with h | h
          · rw [h, hstartedDef, startedRecord_progress]; omega
          · exact hms95 _ h
        have hedge : ∀ (fin : JobRecord), (ms.getLastD started).progress ≤ fin.progress →
            List.Chain' (fun a b => a.progress ≤ b.progress) ((init :: ms) ++ [fin]) := by
          intro fin hfin
          rw [List.cons_append, List.chain'_cons']
          constructor
          · intro y hy
            rw [List.head?_append, monitorTrace_head?] at hy
            simp only [Option.or_some, Option.mem_def, Option.some.injEq] at hy
            subst hy
            rw [hstartedDef, startedRecord_progress, hinit]
            norm_num [initialJobRecord]
          · rw [List.chain'_append]
            refine ⟨hms_chain, List.chain'_singleton fin, ?_⟩
            intro x hx y hy
            simp only [List.head?_cons, Option.mem_def, Option.some.injEq] at hy
            subst hy
            have hxeq : x = ms.getLastD started := by
              rw [List.getLastD_eq_getLast?, hx]
              rfl
            rw [hxeq]
            exact hfin
        by_cases hec : ec = 0 <;> simp only [hec, reduceIte, if_pos, if_neg, if_true, if_false]
        · exact hedge _ (by rw [markCompleted_progress]; omega)
        · exact hedge _ (by rw [markError_progress])

/-- Witness for C2 at a concrete monitored run whose parsed elapsed
values are nonnegative and increasing. -/
theorem claim_C2_witness :
    List.Chain' (fun a b => a.progress ≤ b.progress)
      (processVideoRun
        { duration := some 100, launchError := none,
          lines := ["out_time_ms=1000000\n", "out_time_ms=10000000\n"],
          exitCode := 0, stderrText := "", fallbackError := none }
        "a.mp4" false "watermarked/watermarked_a.mp4") :=
  (claim_C2
    { duration := some 100, launchError := none,
      lines := ["out_time_ms=1000000\n", "out_time_ms=10000000\n"],
      exitCode := 0, stderrText := "", fallbackError := none }
    "a.mp4" "watermarked/watermarked_a.mp4" false
    (by rintro d hd; cases hd; norm_num)
    (by decide) (by decide)).2.2

/-- Counterexample to C2 as stated: a stream whose second elapsed value
is smaller than the first makes the observed progress sequence decrease
(14 then 5) while the status is still `processing`, so the clamping
formula alone does not make poller-visible progress monotone. -/
theorem claim_C2_counterexample :
    (processVideoRun
        { duration := some 100, launchError := none,
          lines := ["out_time_ms=10000000\n", "out_time_ms=1000000\n"],
          exitCode := 0, stderrText := "", fallbackError := none }
        "a.mp4" false "watermarked/watermarked_a.mp4").map JobRecord.progress
      = [0, 5, 14, 5, 100]
    ∧ ¬ List.Chain' (fun a b => a.progress ≤ b.progress)
        (processVideoRun
          { duration := some 100, launchError := none,
            lines := ["out_time_ms=10000000\n", "out_time_ms=1000000\n"],
            exitCode := 0, stderrText := "", fallbackError := none }
          "a.mp4" false "watermarked/watermarked_a.mp4")
    ∧ (processVideoRun
        { duration := some 100, launchError := none,
          lines := ["out_time_ms=10000000\n", "out_time_ms=1000000\n"],
          exitCode := 0, stderrText := "", fallbackError := none }
        "a.mp4" false "watermarked/watermarked_a.mp4").map JobRecord.status
      = [Status.processing, Status.processing, Status.processing,
          Status.processing, Status.completed] := by
  refine ⟨by decide, ?_, by decide⟩
  intro h
  rw [List.chain'_iff_get] at h
  have h23 := h 2 (by decide)
  revert h23
  decide

end VidWatermark
